import Mathlib

/-!
Shallow embedding of the HTTPFilterPolicy controller
(package controller, httpfilterpolicy_controller.go).

The embedding follows the source file closely:

- Reconcile
- policyToTranslationState (per-policy pre-checks, VirtualService target
  resolution, the gateway loop, the rebuilt istio gateway index)
- translationStateToCustomResource (prune of labeled EnvoyFilters, upsert
  of the desired EnvoyFilters)
- updatePolicies
- findAffectedObjects (VirtualServiceIndexer path) and
  IstioGatewayIndexer.FindAffectedObjects
- triggerReconciliation / reconcileReqPlaceholder

Collaborators that live outside this file in the repository
(mosniov1.ValidateHTTPFilterPolicy, ValidateVirtualService, ValidateGateway,
policy.IsChanged, policy.IsValid, policy.SetAccepted, config.RootNamespace,
k8s.GetObjectKey, the translation engine Process) are modelled from the spec
as opaque oracles or constants, each marked in its doc comment.

Cluster reads are modelled by oracle functions returning found / notFound /
a hard error, mirroring the apierrors.IsNotFound split in the source.
Cluster writes in the applier are modelled as deterministic state updates
plus an explicit write log (the claims about the applier concern its
behavior on successful passes).
-/

/-- A Kubernetes namespaced name (types.NamespacedName). -/
structure NsName where
  name : String
  ns : String
deriving DecidableEq

/-- Status reasons used by the controller via SetAccepted
(gwapiv1a2.PolicyReasonAccepted / Invalid / TargetNotFound). -/
inductive PolicyReason where
  | Accepted
  | Invalid
  | TargetNotFound
deriving DecidableEq

/-- Modelled from the spec: the status written by policy.SetAccepted
(not under src/): a reason plus the optional variadic message. -/
structure PolicyStatus where
  reason : PolicyReason
  message : Option String
deriving DecidableEq

/-- The policy target reference (policy.Spec.TargetRef):
group, kind, name, optional namespace, optional sectionName. -/
structure TargetRef where
  group : String
  kind : String
  name : String
  targetNs : Option String
  sectionName : Option String
deriving DecidableEq

/-- An HTTPFilterPolicy as the controller sees it.  The fields isChanged
and isValid are modelled from the spec (policy.IsChanged: the spec was
modified since last seen; policy.IsValid: not marked invalid by a prior
pass) since their definitions are not under src/.  status and
statusChanged model the status condition written by SetAccepted and the
changed flag consulted by updatePolicies. -/
structure HTTPFilterPolicy where
  name : String
  ns : String
  targetRef : TargetRef
  isChanged : Bool
  isValid : Bool
  status : Option PolicyStatus
  statusChanged : Bool
deriving DecidableEq

/-- A named HTTP route section of a VirtualService (virtualService.Spec.Http). -/
structure HTTPSection where
  sectionName : String
deriving DecidableEq

/-- The parts of an istio VirtualService used by the controller. -/
structure VirtualService where
  name : String
  ns : String
  http : List HTTPSection
  gateways : List String
deriving DecidableEq

/-- The parts of an istio Gateway used by the controller. -/
structure Gateway where
  name : String
  ns : String
deriving DecidableEq

/-- Outcome of a cluster read (r.Get): found, IsNotFound, or any other
read failure carrying its message. -/
inductive GetResult (α : Type) where
  | found (a : α)
  | notFound
  | err (msg : String)
deriving DecidableEq

/-- The read-side collaborators of policyToTranslationState.  The three
validators are modelled from the spec (mosniov1.ValidateHTTPFilterPolicy,
ValidateVirtualService, ValidateGateway are not under src/): they return
some message on failure, none on success.  The two getters model r.Get on
the cluster cache. -/
structure Env where
  validatePolicy : HTTPFilterPolicy → Option String
  getVirtualService : NsName → GetResult VirtualService
  validateVirtualService : VirtualService → Option String
  getGateway : NsName → GetResult Gateway
  validateGateway : Gateway → Option String

/-- Modelled from the spec: k8s.GetObjectKey (not under src/) derives a
stable string key from a resource namespace+name. -/
def k8sGetObjectKey (ns name : String) : String :=
  ns ++ "/" ++ name

/-- The message of the namespace-mismatch error in policyToTranslationState. -/
def nsMismatchMsg : String :=
  "namespace in TargetRef does not match the namespace of HTTPFilterPolicy"

/-- What one iteration of the policy loop produces for its policy:
the status written by SetAccepted (none when the iteration ended without
touching the status), the AddPolicyForVirtualService calls (pairs of the
VirtualService and the accepted Gateway), the keys appended to the istio
gateway index for this policy, and the trace of gateway r.Get calls. -/
structure PolicyOutcome where
  status : Option PolicyStatus
  accum : List (VirtualService × Gateway)
  idx : List String
  gwGets : List NsName
deriving DecidableEq

/-- The iteration outcome of a policy that was skipped without touching
its status (the continue after the IsValid check). -/
def emptyOutcome : PolicyOutcome := ⟨none, [], [], []⟩

/-- The pre-checks of one policy-loop iteration, lines 123-147 of the
source: computing nsName, the defensive validation when IsChanged, the
targetRef namespace check nested inside it, and the IsValid skip.
Returns either the outcome of an early continue or the resolved
NamespacedName to fetch the target with. -/
def preCheck (env : Env) (p : HTTPFilterPolicy) : Sum PolicyOutcome NsName :=
  if p.isChanged then
    match env.validatePolicy p with
    | some msg => .inl ⟨some ⟨.Invalid, some msg⟩, [], [], []⟩
    | none =>
      match p.targetRef.targetNs with
      | some tns =>
        if tns ≠ p.ns then .inl ⟨some ⟨.Invalid, some nsMismatchMsg⟩, [], [], []⟩
        else if p.isValid then .inr ⟨p.targetRef.name, tns⟩ else .inl emptyOutcome
      | none =>
        if p.isValid then .inr ⟨p.targetRef.name, p.ns⟩ else .inl emptyOutcome
  else
    if p.isValid then .inr ⟨p.targetRef.name, p.ns⟩ else .inl emptyOutcome

/-- State threaded through the gateway loop of one policy:
the accepted flag, the AddPolicyForVirtualService calls, the index keys
appended for this policy, and the trace of gateway r.Get calls. -/
structure GwLoopState where
  accepted : Bool
  accum : List (VirtualService × Gateway)
  idx : List String
  gwGets : List NsName
deriving DecidableEq

/-- Initial state of the gateway loop (accepted := false). -/
def initGwState : GwLoopState := ⟨false, [], [], []⟩

/-- One iteration of the gateway loop, lines 186-228 of the source:
skip the literal mesh gateway, skip cross-namespace references containing
a slash, fetch the Gateway in the VirtualService namespace (a non-notfound
error aborts the whole build, notfound skips this reference), validate it
(failure skips this reference), and on success register the policy with
the translation engine, append to the index, and mark accepted. -/
def gwStep (env : Env) (vs : VirtualService) (st : GwLoopState) (gw : String) :
    Except String GwLoopState :=
  if gw == "mesh" then .ok st
  else if gw.data.contains '/' then .ok st
  else
    match env.getGateway ⟨gw, vs.ns⟩ with
    | .err m => .error m
    | .notFound => .ok { st with gwGets := st.gwGets ++ [⟨gw, vs.ns⟩] }
    | .found g =>
      match env.validateGateway g with
      | some _ => .ok { st with gwGets := st.gwGets ++ [⟨gw, vs.ns⟩] }
      | none =>
        .ok ⟨true, st.accum ++ [(vs, g)], st.idx ++ [k8sGetObjectKey g.ns g.name],
             st.gwGets ++ [⟨gw, vs.ns⟩]⟩

/-- The gateway loop over virtualService.Spec.Gateways. -/
def gwLoop (env : Env) (vs : VirtualService) :
    List String → GwLoopState → Except String GwLoopState
  | [], st => .ok st
  | gw :: rest, st =>
    match gwStep env vs st gw with
    | .error m => .error m
    | .ok st1 => gwLoop env vs rest st1

/-- The sectionName containment check of lines 170-184: when the policy
has a sectionName, some HTTP route section of the VirtualService must
carry exactly that name. -/
def sectionCheck (p : HTTPFilterPolicy) (vs : VirtualService) : Bool :=
  match p.targetRef.sectionName with
  | none => true
  | some sn => vs.http.any (fun s => s.sectionName == sn)

/-- Target resolution for one policy, lines 149-235 of the source: the
group/kind test, the VirtualService fetch with its notfound/error split,
VirtualService validation, the sectionName check, the gateway loop, and
the final accepted / not-accepted status assignment. -/
def processTarget (env : Env) (p : HTTPFilterPolicy) (nsn : NsName) :
    Except String PolicyOutcome :=
  if p.targetRef.group == "networking.istio.io" && p.targetRef.kind == "VirtualService" then
    match env.getVirtualService nsn with
    | .err m =>
      .error ("failed to get VirtualService: " ++ m ++ ", NamespacedName: "
              ++ nsn.ns ++ "/" ++ nsn.name)
    | .notFound => .ok ⟨some ⟨.TargetNotFound, none⟩, [], [], []⟩
    | .found vs =>
      match env.validateVirtualService vs with
      | some m => .ok ⟨some ⟨.TargetNotFound, some m⟩, [], [], []⟩
      | none =>
        if sectionCheck p vs then
          match gwLoop env vs vs.gateways initGwState with
          | .error m => .error m
          | .ok st =>
            .ok ⟨some (if st.accepted then ⟨.Accepted, none⟩
                       else ⟨.TargetNotFound, some "invalid target resource"⟩),
                 st.accum, st.idx, st.gwGets⟩
        else .ok ⟨some ⟨.TargetNotFound, none⟩, [], [], []⟩
  else .ok ⟨some ⟨.TargetNotFound, some "invalid target resource"⟩, [], [], []⟩

/-- One full iteration of the policy loop: pre-checks then target
resolution. -/
def processPolicy (env : Env) (p : HTTPFilterPolicy) : Except String PolicyOutcome :=
  match preCheck env p with
  | .inl o => .ok o
  | .inr nsn => processTarget env p nsn

/-- Modelled from the spec: policy.SetAccepted writes the status condition
and maintains the changed flag consulted by updatePolicies (SetAccepted
and Status.IsChanged are not under src/); the flag is set when the newly
written status differs from the stored one. -/
def applyOutcome (p : HTTPFilterPolicy) (o : PolicyOutcome) : HTTPFilterPolicy :=
  match o.status with
  | none => p
  | some st =>
    { p with status := some st,
             statusChanged := if p.status = some st then p.statusChanged else true }

/-- The value built by policyToTranslationState: the policies with their
statuses applied, the translation-engine accumulator
(AddPolicyForVirtualService calls), and the rebuilt istio gateway index as
the flat list of (key, policy) append operations. -/
structure TransState where
  policies : List HTTPFilterPolicy
  accum : List (HTTPFilterPolicy × VirtualService × Gateway)
  gwIdx : List (String × HTTPFilterPolicy)
deriving DecidableEq

/-- The policy loop of policyToTranslationState over the listed policies. -/
def policyLoop (env : Env) :
    List HTTPFilterPolicy → TransState → Except String TransState
  | [], ts => .ok ts
  | p :: rest, ts =>
    match processPolicy env p with
    | .error m => .error m
    | .ok o =>
      policyLoop env rest
        { policies := ts.policies ++ [applyOutcome p o],
          accum := ts.accum ++ o.accum.map (fun vg => (p, vg.1, vg.2)),
          gwIdx := ts.gwIdx ++ o.idx.map (fun k => (k, p)) }

/-- policyToTranslationState over an already-listed policy list: on any
non-notfound read failure the whole build returns the error and no
translation state. -/
def policyToTranslationState (env : Env) (ps : List HTTPFilterPolicy) :
    Except String TransState :=
  policyLoop env ps ⟨[], [], []⟩

/-- The ownership label key (LabelCreatedBy). -/
def labelCreatedBy : String := "htnn.mosn.io/created-by"

/-- The ownership label value attached to generated EnvoyFilters. -/
def labelCreatedByValue : String := "HTTPFilterPolicy"

/-- Modelled from the spec: config.RootNamespace (not under src/), the
fixed control-plane namespace all generated EnvoyFilters are written to. -/
def rootNamespace : String := "istio-system"

/-- An istio EnvoyFilter as the applier sees it: identity, labels, an
opaque semantic payload standing for its Spec (proto.Equal on Specs is
modelled as equality of this payload), and the cluster-assigned
resourceVersion. -/
structure EnvoyFilter where
  name : String
  ns : String
  labels : List (String × String)
  spec : String
  resourceVersion : String
deriving DecidableEq

/-- Whether an EnvoyFilter carries the ownership label, i.e. whether the
List with MatchingLabels of line 247 selects it. -/
def hasOwnerLabel (e : EnvoyFilter) : Bool :=
  e.labels.lookup labelCreatedBy == some labelCreatedByValue

/-- Assignment of the ownership label into a label map
(ef.Labels[LabelCreatedBy] = HTTPFilterPolicy, after the nil-map guard). -/
def setOwnerLabel (ls : List (String × String)) : List (String × String) :=
  (labelCreatedBy, labelCreatedByValue) :: ls.filter (fun kv => kv.1 ≠ labelCreatedBy)

/-- Lines 262-266 of the source: force the namespace to the control-plane
namespace and attach the ownership label to a desired EnvoyFilter. -/
def prepareEnvoyFilter (ef : EnvoyFilter) : EnvoyFilter :=
  { ef with ns := rootNamespace, labels := setOwnerLabel ef.labels }

/-- Whether FinalState.EnvoyFilters contains a desired object of this
name (the map is keyed by object name, so the lookup of line 252 is a
name-membership test). -/
def fsHas (fs : List EnvoyFilter) (n : String) : Bool :=
  fs.any (fun ef => ef.name == n)

/-- r.Get of an EnvoyFilter by NamespacedName over the modelled cluster. -/
def clusterGet (c : List EnvoyFilter) (ns n : String) : Option EnvoyFilter :=
  c.find? (fun e => e.ns == ns && e.name == n)

/-- r.Delete of an EnvoyFilter: removes the object with that
NamespacedName from the modelled cluster. -/
def clusterDelete (c : List EnvoyFilter) (ns n : String) : List EnvoyFilter :=
  c.filter (fun e => !(e.ns == ns && e.name == n))

/-- r.Update of an EnvoyFilter: replaces the object with the same
NamespacedName by the given one. -/
def clusterUpdate (c : List EnvoyFilter) (u : EnvoyFilter) : List EnvoyFilter :=
  c.map (fun e => if e.ns == u.ns && e.name == u.name then u else e)

/-- The cluster writes the applier and the status writer can perform. -/
inductive WriteOp where
  | deleteEF (ns n : String)
  | createEF (ns n : String)
  | updateEF (ns n : String)
  | statusUpdate (ns n : String)
deriving DecidableEq

/-- The prune loop of lines 251-259: every listed labeled EnvoyFilter
whose name is absent from FinalState.EnvoyFilters is deleted.  The first
argument is the snapshot returned by the labeled List; the accumulator is
the evolving cluster and the write log. -/
def pruneLoop (fs : List EnvoyFilter) :
    List EnvoyFilter → List EnvoyFilter × List WriteOp → List EnvoyFilter × List WriteOp
  | [], acc => acc
  | e :: rest, acc =>
    if fsHas fs e.name then pruneLoop fs rest acc
    else pruneLoop fs rest (clusterDelete acc.1 e.ns e.name, acc.2 ++ [.deleteEF e.ns e.name])

/-- One iteration of the upsert loop, lines 261-294: prepare the desired
object, Get it by name in the control-plane namespace; absent: Create;
present with proto-equal Spec: no write; present with different Spec:
Update carrying the existing resourceVersion forward. -/
def upsertStep (acc : List EnvoyFilter × List WriteOp) (ef : EnvoyFilter) :
    List EnvoyFilter × List WriteOp :=
  let ef1 := prepareEnvoyFilter ef
  match clusterGet acc.1 rootNamespace ef1.name with
  | none => (acc.1 ++ [ef1], acc.2 ++ [.createEF rootNamespace ef1.name])
  | some existing =>
    if existing.spec == ef1.spec then acc
    else (clusterUpdate acc.1 { ef1 with resourceVersion := existing.resourceVersion },
          acc.2 ++ [.updateEF rootNamespace ef1.name])

/-- The upsert loop over the desired EnvoyFilters of FinalState. -/
def upsertLoop : List EnvoyFilter → List EnvoyFilter × List WriteOp →
    List EnvoyFilter × List WriteOp
  | [], acc => acc
  | ef :: rest, acc => upsertLoop rest (upsertStep acc ef)

/-- translationStateToCustomResource: list the labeled EnvoyFilters,
prune the stale ones, then upsert every desired one.  FinalState is
modelled as the list of desired EnvoyFilters (the map of the source is
keyed by the object names).  Returns the resulting cluster and the write
log of the pass. -/
def translationStateToCustomResource (fs : List EnvoyFilter) (cluster : List EnvoyFilter) :
    List EnvoyFilter × List WriteOp :=
  upsertLoop fs (pruneLoop fs (cluster.filter hasOwnerLabel) (cluster, []))

/-- updatePolicies, lines 300-317: a status Update for exactly the
policies whose status changed. -/
def updatePolicies (ps : List HTTPFilterPolicy) : List WriteOp :=
  (ps.filter (fun p => p.statusChanged)).map (fun p => .statusUpdate p.ns p.name)

/-- The collaborators of Reconcile: the policy List call, the read-side
environment, the translation engine Process step (modelled from the spec:
an opaque function from the accumulated state to the desired EnvoyFilters
or an error; its algorithm is outside the core), and the current cluster
of EnvoyFilters. -/
structure ReconcileEnv where
  listPolicies : Except String (List HTTPFilterPolicy)
  env : Env
  process : List (HTTPFilterPolicy × VirtualService × Gateway) →
    Except String (List EnvoyFilter)
  cluster : List EnvoyFilter

/-- What one Reconcile pass produced: the error returned to the
scheduler (none models a nil error), the cluster writes performed, and
the resulting EnvoyFilter cluster. -/
structure ReconcileOutcome where
  err : Option String
  writes : List WriteOp
  cluster : List EnvoyFilter
deriving DecidableEq

/-- Reconcile, lines 76-107: build the translation state (errors are
returned to the scheduler), run the engine Process step (an error here is
logged and the pass ends with a nil error and no further writes), apply
the final state to the cluster, then persist the changed statuses. -/
def Reconcile (R : ReconcileEnv) : ReconcileOutcome :=
  match R.listPolicies with
  | .error e => ⟨some ("failed to list HTTPFilterPolicy: " ++ e), [], R.cluster⟩
  | .ok ps =>
    match policyToTranslationState R.env ps with
    | .error e => ⟨some e, [], R.cluster⟩
    | .ok ts =>
      match R.process ts.accum with
      | .error _ => ⟨none, [], R.cluster⟩
      | .ok fs =>
        let applied := translationStateToCustomResource fs R.cluster
        ⟨none, applied.2 ++ updatePolicies ts.policies, applied.1⟩

/-- A reconcile request emitted by a watcher (reconcile.Request). -/
abbrev ReconcileRequest := NsName

/-- The shared one-element placeholder request slice
(reconcileReqPlaceholder). -/
def reconcileReqPlaceholder : List ReconcileRequest :=
  [⟨"httpfilterpolicies", ""⟩]

/-- triggerReconciliation returns the placeholder slice. -/
def triggerReconciliation : List ReconcileRequest :=
  reconcileReqPlaceholder

/-- findAffectedObjects, lines 355-386 (the VirtualService trigger path):
list the policies matching the field index for the changed object name
(the reader argument models r.List with the OneTermEqualSelector); a list
failure is logged and nil returned; with at least one match a single
placeholder request is emitted, otherwise the empty request slice. -/
def findAffectedObjects
    (listByIndex : String → Except String (List HTTPFilterPolicy))
    (objName : String) : List ReconcileRequest :=
  match listByIndex objName with
  | .error _ => []
  | .ok items =>
    let requests := items.map (fun p => NsName.mk p.name p.ns)
    if requests.length > 0 then triggerReconciliation else requests

/-- IstioGatewayIndexer.FindAffectedObjects, lines 409-433: look the
changed gateway key up in the istio gateway index (a Go map, modelled as
an association list looked up by key); absent: nil; present: the single
placeholder request. -/
def istioGatewayFindAffectedObjects
    (index : List (String × List HTTPFilterPolicy)) (gw : Gateway) :
    List ReconcileRequest :=
  match index.lookup (k8sGetObjectKey gw.ns gw.name) with
  | none => []
  | some _ => triggerReconciliation

/-- A gateway reference is usable when it is neither the mesh literal nor
a cross-namespace reference, the Gateway is found in the VirtualService
namespace, and it passes validation: exactly the conditions of the branch
of the gateway loop that accepts the policy. -/
def usableGw (env : Env) (vs : VirtualService) (gw : String) : Bool :=
  !(gw == "mesh") && !(gw.data.contains '/') &&
    match env.getGateway ⟨gw, vs.ns⟩ with
    | .found g => env.validateGateway g == none
    | _ => false

/-- Fixture: a usable Gateway in the default namespace. -/
def gwW : Gateway := ⟨"gw1", "default"⟩

/-- Fixture: a VirtualService with one HTTP section and one gateway
reference. -/
def vsW : VirtualService := ⟨"vs1", "default", [⟨"sec1"⟩], ["gw1"]⟩

/-- Fixture: an environment where vs1 and gw1 exist and all validations
pass. -/
def envW : Env :=
  { validatePolicy := fun _ => none,
    getVirtualService := fun n => if n = ⟨"vs1", "default"⟩ then .found vsW else .notFound,
    validateVirtualService := fun _ => none,
    getGateway := fun n => if n = ⟨"gw1", "default"⟩ then .found gwW else .notFound,
    validateGateway := fun _ => none }

/-- Fixture: a changed, valid policy targeting vs1 in its own namespace. -/
def polW : HTTPFilterPolicy :=
  ⟨"p1", "default", ⟨"networking.istio.io", "VirtualService", "vs1", none, none⟩,
   true, true, none, false⟩

/-- Fixture: the iteration outcome of polW under envW. -/
def outW : PolicyOutcome :=
  ⟨some ⟨.Accepted, none⟩, [(vsW, gwW)], ["default/gw1"], [⟨"gw1", "default"⟩]⟩



/-- Fixture: an unchanged, valid policy of a non-VirtualService target
kind whose targetRef namespace differs from its own namespace. -/
def polX : HTTPFilterPolicy :=
  ⟨"p2", "default", ⟨"x.example.com", "Other", "t1", some "other", none⟩,
   false, true, none, false⟩

/-- Fixture: a changed, valid VirtualService-targeting policy whose
targetRef namespace differs from its own namespace. -/
def polY : HTTPFilterPolicy :=
  ⟨"p3", "default", ⟨"networking.istio.io", "VirtualService", "vs1", some "other", none⟩,
   true, true, none, false⟩

/-- Fixture: a changed, valid policy with a sectionName no section of
vsW carries. -/
def polZ : HTTPFilterPolicy :=
  ⟨"p4", "default", ⟨"networking.istio.io", "VirtualService", "vs1", none, some "nope"⟩,
   true, true, none, false⟩

/-- Fixture: a VirtualService whose only gateway references are the mesh
literal and a cross-namespace reference. -/
def vsM : VirtualService := ⟨"vs2", "default", [⟨"sec1"⟩], ["mesh", "otherns/gw"]⟩

/-- Fixture: envW with vsM as the resolved VirtualService. -/
def envM : Env := { envW with getVirtualService := fun _ => .found vsM }

/-- Fixture: a changed, valid policy targeting vsM. -/
def polM : HTTPFilterPolicy :=
  ⟨"p5", "default", ⟨"networking.istio.io", "VirtualService", "vs2", none, none⟩,
   true, true, none, false⟩


/-- Fixture: an environment where the VirtualService read reports
not found. -/
def envNF : Env := { envW with getVirtualService := fun _ => .notFound }

/-- Fixture: an environment where the VirtualService read fails hard. -/
def envEV : Env := { envW with getVirtualService := fun _ => .err "boom" }

/-- Fixture: an environment where the Gateway read fails hard. -/
def envEG : Env := { envW with getGateway := fun _ => .err "gwboom" }

/-- Fixture: an environment where the Gateway read reports not found. -/
def envNG : Env := { envW with getGateway := fun _ => .notFound }

/-- Fixture: a reconcile environment whose engine Process step fails. -/
def renvPE : ReconcileEnv :=
  { listPolicies := .ok [], env := envW, process := fun _ => .error "te",
    cluster := [] }

/-- Fixture: three policies depending on one gateway. -/
def ps3 : List HTTPFilterPolicy := [polW, polY, polZ]

/-- Fixture: a gateway index recording three dependent policies under
the key of gwW. -/
def idx3 : List (String × List HTTPFilterPolicy) := [("default/gw1", ps3)]


/-- Fixture: a desired EnvoyFilter as produced by the engine (namespace
and labels not yet prepared). -/
def efD : EnvoyFilter := ⟨"a", "user-ns", [], "s1", ""⟩

/-- Fixture: an existing labeled EnvoyFilter with the same payload as
efD. -/
def efC2 : EnvoyFilter :=
  ⟨"a", "istio-system", [(labelCreatedBy, labelCreatedByValue)], "s1", "rv1"⟩

/-- Fixture: an existing unlabeled EnvoyFilter with a payload different
from efD. -/
def efC3 : EnvoyFilter := ⟨"a", "istio-system", [], "s2", "rv2"⟩


/-- Fixture: an unlabeled EnvoyFilter sitting in the control-plane
namespace under a desired name, with a stale payload. -/
def efU : EnvoyFilter := ⟨"a", "istio-system", [], "old", "rv0"⟩

/-- Fixture: a desired set holding one object named a with a new
payload. -/
def fsX : List EnvoyFilter := [⟨"a", "gen-ns", [], "new", ""⟩]

/-- Fixture: a labeled EnvoyFilter matching the desired object a. -/
def efL1 : EnvoyFilter :=
  ⟨"a", "istio-system", [(labelCreatedBy, labelCreatedByValue)], "new", "rv1"⟩

/-- Fixture: a labeled EnvoyFilter named b absent from the desired set. -/
def efL2 : EnvoyFilter :=
  ⟨"b", "istio-system", [(labelCreatedBy, labelCreatedByValue)], "s", "rv2"⟩

/-- Fixture: an unlabeled user object outside the control-plane
namespace. -/
def efU2 : EnvoyFilter := ⟨"c", "user-ns", [], "u", "rv3"⟩

/-- Fixture: a cluster with one up-to-date labeled object, one stale
labeled object and one unlabeled user object. -/
def clW : List EnvoyFilter := [efL1, efL2, efU2]

/-- Fixture: the desired set keeping only object a. -/
def fsW2 : List EnvoyFilter := [⟨"a", "gen-ns", [], "new", ""⟩]

-- ==================== theorems ====================

/-- One successful gateway-loop iteration sets accepted exactly when the
reference is usable (or it was already set). -/
theorem gwStep_ok_accepted (env : Env) (vs : VirtualService) (st st1 : GwLoopState)
    (gw : String) (h : gwStep env vs st gw = .ok st1) :
    st1.accepted = (st.accepted || usableGw env vs gw) := by
  unfold gwStep at h
  unfold usableGw
  by_cases hm : (gw == "mesh") = true
  · simp [hm] at h
    simp [hm, ← h]
  · by_cases hs : '/' ∈ gw.data
    · simp [hm, hs] at h
      simp [hm, hs, ← h]
    · simp [hm, hs] at h ⊢
      cases hg : env.getGateway ⟨gw, vs.ns⟩ with
      | err m => rw [hg] at h; exact absurd h (by simp)
      | notFound => rw [hg] at h; simp at h; simp [← h]
      | found g =>
        rw [hg] at h
        cases hv : env.validateGateway g with
        | some m => simp [hv] at h; simp [hv, ← h]
        | none => simp [hv] at h; simp [hv, ← h]

/-- A successful run of the gateway loop ends accepted exactly when some
gateway reference is usable (or it started accepted). -/
theorem gwLoop_ok_accepted (env : Env) (vs : VirtualService) :
    ∀ (gws : List String) (st st' : GwLoopState),
    gwLoop env vs gws st = .ok st' →
    st'.accepted = (st.accepted || gws.any (usableGw env vs)) := by
  intro gws
  induction gws with
  | nil =>
    intro st st' h
    unfold gwLoop at h
    simp at h
    simp [← h]
  | cons gw rest ih =>
    intro st st' h
    unfold gwLoop at h
    cases hstep : gwStep env vs st gw with
    | error m => rw [hstep] at h; exact absurd h (by simp)
    | ok st1 =>
      rw [hstep] at h
      have h1 := gwStep_ok_accepted env vs st st1 gw hstep
      have h2 := ih st1 st' h
      simp [h2, h1, Bool.or_assoc]

/-- C1: for every policy reaching target resolution (the pre-checks
returned a NamespacedName) whose VirtualService is found and valid and
whose sectionName check passes, a successful iteration ends Accepted when
at least one gateway reference is usable and TargetNotFound with message
invalid target resource otherwise; a policy with any other targetRef
group/kind ends on the same default path with TargetNotFound and message
invalid target resource. -/
theorem policy_final_status_accept_or_default (env : Env) (p : HTTPFilterPolicy)
    (nsn : NsName) (vs : VirtualService) (o : PolicyOutcome)
    (hpre : preCheck env p = .inr nsn)
    (hvs : env.getVirtualService nsn = .found vs)
    (hvv : env.validateVirtualService vs = none)
    (hsec : sectionCheck p vs = true)
    (hrun : processPolicy env p = .ok o) :
    o.status = some
      (if p.targetRef.group == "networking.istio.io" && p.targetRef.kind == "VirtualService" then
        (if vs.gateways.any (usableGw env vs) then ⟨.Accepted, none⟩
         else ⟨.TargetNotFound, some "invalid target resource"⟩)
       else ⟨.TargetNotFound, some "invalid target resource"⟩) := by
  unfold processPolicy at hrun
  rw [hpre] at hrun
  unfold processTarget at hrun
  by_cases hk : (p.targetRef.group == "networking.istio.io"
      && p.targetRef.kind == "VirtualService") = true
  · rw [hk] at hrun
    rw [hk]
    simp only [eq_self_iff_true, if_true] at hrun ⊢
    rw [hvs] at hrun
    simp [hvv, hsec] at hrun
    cases hg : gwLoop env vs vs.gateways initGwState with
    | error m => rw [hg] at hrun; simp at hrun
    | ok st =>
      rw [hg] at hrun
      simp at hrun
      have ha := gwLoop_ok_accepted env vs vs.gateways initGwState st hg
      simp [initGwState] at ha
      subst hrun
      simp [ha]
  · simp [hk] at hrun ⊢
    subst hrun
    simp

/-- C1 witness: polW under envW reaches the gateway loop, finds the one
usable gateway and ends Accepted. -/
theorem policy_final_status_accept_or_default_witness :
    processPolicy envW polW = Except.ok outW ∧
    outW.status = some ⟨PolicyReason.Accepted, none⟩ := by
  have h := policy_final_status_accept_or_default envW polW ⟨"vs1", "default"⟩ vsW outW
    rfl rfl rfl rfl rfl
  exact ⟨rfl, by rw [h]; rfl⟩

/-- C2 counterexample: for an unchanged policy (IsChanged false) the
namespace-mismatch check is skipped, because it is nested inside the
defensive IsChanged revalidation block; polX has an explicit targetRef
namespace different from its own, yet its status ends TargetNotFound on
the default path, not Invalid, and target resolution is attempted (the
loop body runs past the pre-checks). -/
theorem ns_mismatch_unchanged_policy_not_invalid_cex :
    polX.targetRef.targetNs = some "other" ∧ polX.ns = "default" ∧
    polX.isChanged = false ∧
    processPolicy envW polX =
      Except.ok ⟨some ⟨PolicyReason.TargetNotFound, some "invalid target resource"⟩,
                 [], [], []⟩ :=
  ⟨rfl, rfl, rfl, rfl⟩

/-- C2 amended: for every policy whose spec changed since last seen (so
the defensive validation block runs) and which passes structural
validation, an explicitly set targetRef namespace differing from the
policy namespace sets the status to Invalid and no target resolution is
attempted (no VirtualService or Gateway read, no engine registration, no
index entry), independent of the target kind. -/
theorem ns_mismatch_changed_policy_invalid (env : Env) (p : HTTPFilterPolicy)
    (t : String) (hch : p.isChanged = true) (hv : env.validatePolicy p = none)
    (hns : p.targetRef.targetNs = some t) (hne : t ≠ p.ns) :
    processPolicy env p =
      Except.ok ⟨some ⟨PolicyReason.Invalid, some nsMismatchMsg⟩, [], [], []⟩ := by
  have hpre : preCheck env p = .inl ⟨some ⟨.Invalid, some nsMismatchMsg⟩, [], [], []⟩ := by
    unfold preCheck
    simp [hch, hv, hns, hne]
  unfold processPolicy
  rw [hpre]

/-- C2 witness: polY is changed, passes validation, and its targetRef
namespace mismatch makes it Invalid. -/
theorem ns_mismatch_changed_policy_invalid_witness :
    processPolicy envW polY =
      Except.ok ⟨some ⟨PolicyReason.Invalid, some nsMismatchMsg⟩, [], [], []⟩ :=
  ns_mismatch_changed_policy_invalid envW polY "other" rfl rfl rfl (by decide)

/-- C8: a policy with a sectionName that no HTTP route section of the
fetched valid VirtualService carries ends TargetNotFound, with no
gateway read, no engine registration and no index entry (the gateway
references are never examined). -/
theorem section_absent_target_not_found (env : Env) (p : HTTPFilterPolicy)
    (nsn : NsName) (vs : VirtualService) (sn : String) (o : PolicyOutcome)
    (hpre : preCheck env p = .inr nsn)
    (hgk : (p.targetRef.group == "networking.istio.io"
        && p.targetRef.kind == "VirtualService") = true)
    (hvs : env.getVirtualService nsn = .found vs)
    (hvv : env.validateVirtualService vs = none)
    (hsn : p.targetRef.sectionName = some sn)
    (hnone : vs.http.any (fun s => s.sectionName == sn) = false)
    (hrun : processPolicy env p = .ok o) :
    o = ⟨some ⟨PolicyReason.TargetNotFound, none⟩, [], [], []⟩ := by
  have hsec : sectionCheck p vs = false := by
    unfold sectionCheck
    simp [hsn, hnone]
  unfold processPolicy at hrun
  rw [hpre] at hrun
  unfold processTarget at hrun
  rw [hgk] at hrun
  simp only [eq_self_iff_true, if_true] at hrun
  rw [hvs] at hrun
  simp [hvv, hsec] at hrun
  exact hrun.symm

/-- C8 witness: polZ asks for section nope which vsW lacks, so it ends
TargetNotFound without any gateway activity. -/
theorem section_absent_target_not_found_witness :
    processPolicy envW polZ =
      Except.ok ⟨some ⟨PolicyReason.TargetNotFound, none⟩, [], [], []⟩ ∧
    (⟨some ⟨PolicyReason.TargetNotFound, none⟩, [], [], []⟩ : PolicyOutcome) =
      ⟨some ⟨PolicyReason.TargetNotFound, none⟩, [], [], []⟩ := by
  refine ⟨rfl, ?_⟩
  exact section_absent_target_not_found envW polZ ⟨"vs1", "default"⟩ vsW "nope"
    ⟨some ⟨PolicyReason.TargetNotFound, none⟩, [], [], []⟩
    rfl rfl rfl rfl rfl rfl rfl

/-- A gateway loop whose references are all the mesh literal or
cross-namespace forms leaves its state untouched. -/
theorem gwLoop_all_skipped (env : Env) (vs : VirtualService) :
    ∀ (gws : List String) (st : GwLoopState),
    (∀ gw ∈ gws, gw = "mesh" ∨ '/' ∈ gw.data) →
    gwLoop env vs gws st = .ok st := by
  intro gws
  induction gws with
  | nil => intro st _; rfl
  | cons gw rest ih =>
    intro st hall
    have hgw := hall gw (by simp)
    have hstep : gwStep env vs st gw = .ok st := by
      unfold gwStep
      rcases hgw with hm | hs
      · simp [hm]
      · by_cases hm2 : (gw == "mesh") = true
        · simp [hm2]
        · simp [hm2, hs]
    unfold gwLoop
    rw [hstep]
    exact ih st (fun g hg => hall g (by simp [hg]))

/-- C5: mesh and cross-namespace gateway references are skipped: they
contribute no index entry, no engine registration and no gateway read;
a policy whose valid VirtualService references only such gateways ends
TargetNotFound with message invalid target resource and empty
contributions. -/
theorem mesh_or_cross_ns_gateways_not_accepted (env : Env) (p : HTTPFilterPolicy)
    (nsn : NsName) (vs : VirtualService) (o : PolicyOutcome)
    (hpre : preCheck env p = .inr nsn)
    (hgk : (p.targetRef.group == "networking.istio.io"
        && p.targetRef.kind == "VirtualService") = true)
    (hvs : env.getVirtualService nsn = .found vs)
    (hvv : env.validateVirtualService vs = none)
    (hsec : sectionCheck p vs = true)
    (hall : ∀ gw ∈ vs.gateways, gw = "mesh" ∨ '/' ∈ gw.data)
    (hrun : processPolicy env p = .ok o) :
    o = ⟨some ⟨PolicyReason.TargetNotFound, some "invalid target resource"⟩,
         [], [], []⟩ := by
  have hloop := gwLoop_all_skipped env vs vs.gateways initGwState hall
  unfold processPolicy at hrun
  rw [hpre] at hrun
  unfold processTarget at hrun
  rw [hgk] at hrun
  simp only [eq_self_iff_true, if_true] at hrun
  rw [hvs] at hrun
  simp [hvv, hsec] at hrun
  rw [hloop] at hrun
  simp [initGwState] at hrun
  exact hrun.symm

/-- C5 witness: polM targets vsM whose only gateway references are mesh
and otherns/gw, so it ends TargetNotFound with empty contributions. -/
theorem mesh_or_cross_ns_gateways_not_accepted_witness :
    processPolicy envM polM =
      Except.ok ⟨some ⟨PolicyReason.TargetNotFound, some "invalid target resource"⟩,
                 [], [], []⟩ ∧
    (⟨some ⟨PolicyReason.TargetNotFound, some "invalid target resource"⟩,
      [], [], []⟩ : PolicyOutcome) =
      ⟨some ⟨PolicyReason.TargetNotFound, some "invalid target resource"⟩,
       [], [], []⟩ := by
  refine ⟨rfl, ?_⟩
  exact mesh_or_cross_ns_gateways_not_accepted envM polM ⟨"vs2", "default"⟩ vsM
    ⟨some ⟨PolicyReason.TargetNotFound, some "invalid target resource"⟩, [], [], []⟩
    rfl rfl rfl rfl rfl (by decide) rfl

/-- C10: when listing the policies through the field index fails, the
VirtualService trigger path returns nil: no reconcile request is emitted
and no error is surfaced (the function has no error channel). -/
theorem list_error_drops_event
    (reader : String → Except String (List HTTPFilterPolicy)) (nm e : String)
    (h : reader nm = .error e) :
    findAffectedObjects reader nm = [] := by
  unfold findAffectedObjects
  rw [h]

/-- C10 witness: a reader that always fails yields no requests. -/
theorem list_error_drops_event_witness :
    findAffectedObjects (fun _ => Except.error "boom") "vs1" = [] :=
  list_error_drops_event (fun _ => Except.error "boom") "vs1" "boom" rfl

/-- C6: a not-found VirtualService sets TargetNotFound and is not an
error; any other VirtualService read failure makes the iteration, and
policyToTranslationState as a whole, return the error (and no
translation state); inside the gateway loop a hard Gateway read failure
aborts with the error while a not-found Gateway only skips that one
reference and the loop continues with the rest. -/
theorem read_error_split (env1 env2 env3 env4 : Env) (p : HTTPFilterPolicy)
    (nsn : NsName) (vs : VirtualService) (st : GwLoopState) (gw : String)
    (rest : List String) (m2 m3 : String)
    (hgk : (p.targetRef.group == "networking.istio.io"
        && p.targetRef.kind == "VirtualService") = true)
    (hpre1 : preCheck env1 p = .inr nsn)
    (h1 : env1.getVirtualService nsn = .notFound)
    (hpre2 : preCheck env2 p = .inr nsn)
    (h2 : env2.getVirtualService nsn = .err m2)
    (hm : gw ≠ "mesh") (hsl : ¬ '/' ∈ gw.data)
    (h3 : env3.getGateway ⟨gw, vs.ns⟩ = .err m3)
    (h4 : env4.getGateway ⟨gw, vs.ns⟩ = .notFound) :
    processPolicy env1 p = .ok ⟨some ⟨PolicyReason.TargetNotFound, none⟩, [], [], []⟩
    ∧ processPolicy env2 p = .error ("failed to get VirtualService: " ++ m2
        ++ ", NamespacedName: " ++ nsn.ns ++ "/" ++ nsn.name)
    ∧ policyToTranslationState env2 [p] = .error ("failed to get VirtualService: " ++ m2
        ++ ", NamespacedName: " ++ nsn.ns ++ "/" ++ nsn.name)
    ∧ gwLoop env3 vs (gw :: rest) st = .error m3
    ∧ gwLoop env4 vs (gw :: rest) st
        = gwLoop env4 vs rest { st with gwGets := st.gwGets ++ [⟨gw, vs.ns⟩] } := by
  have hp1 : processPolicy env1 p
      = .ok ⟨some ⟨PolicyReason.TargetNotFound, none⟩, [], [], []⟩ := by
    unfold processPolicy
    rw [hpre1]
    unfold processTarget
    rw [hgk]
    simp only [eq_self_iff_true, if_true]
    rw [h1]
  have hp2 : processPolicy env2 p = .error ("failed to get VirtualService: " ++ m2
      ++ ", NamespacedName: " ++ nsn.ns ++ "/" ++ nsn.name) := by
    unfold processPolicy
    rw [hpre2]
    unfold processTarget
    rw [hgk]
    simp only [eq_self_iff_true, if_true]
    rw [h2]
  have hstep3 : gwStep env3 vs st gw = .error m3 := by
    unfold gwStep
    simp [hm, hsl, h3]
  have hstep4 : gwStep env4 vs st gw
      = .ok { st with gwGets := st.gwGets ++ [⟨gw, vs.ns⟩] } := by
    unfold gwStep
    simp [hm, hsl, h4]
  refine ⟨hp1, hp2, ?_, ?_, ?_⟩
  · unfold policyToTranslationState policyLoop
    rw [hp2]
  · unfold gwLoop
    rw [hstep3]
  · show (match gwStep env4 vs st gw with
      | Except.error m => Except.error m
      | Except.ok st1 => gwLoop env4 vs rest st1)
        = gwLoop env4 vs rest { st with gwGets := st.gwGets ++ [⟨gw, vs.ns⟩] }
    rw [hstep4]

/-- C6 witness: the four read outcomes instantiated with concrete
environments around polW, vsW and gateway gw1. -/
theorem read_error_split_witness :
    processPolicy envNF polW
      = .ok ⟨some ⟨PolicyReason.TargetNotFound, none⟩, [], [], []⟩
    ∧ processPolicy envEV polW = .error ("failed to get VirtualService: " ++ "boom"
        ++ ", NamespacedName: " ++ "default" ++ "/" ++ "vs1")
    ∧ policyToTranslationState envEV [polW] = .error ("failed to get VirtualService: "
        ++ "boom" ++ ", NamespacedName: " ++ "default" ++ "/" ++ "vs1")
    ∧ gwLoop envEG vsW ["gw1"] initGwState = .error "gwboom"
    ∧ gwLoop envNG vsW ["gw1"] initGwState
        = gwLoop envNG vsW []
            { initGwState with gwGets := initGwState.gwGets ++ [⟨"gw1", "default"⟩] } :=
  read_error_split envNF envEV envEG envNG polW ⟨"vs1", "default"⟩ vsW initGwState
    "gw1" [] "boom" "gwboom" rfl rfl rfl rfl rfl (by decide) (by decide) rfl rfl

/-- C7: when the translation engine Process step fails, Reconcile ends
with a nil error, performs no cluster write in that pass and leaves the
cluster untouched: neither the applier nor the status writer runs. -/
theorem process_error_ends_pass_cleanly (R : ReconcileEnv)
    (ps : List HTTPFilterPolicy) (ts : TransState) (e : String)
    (hl : R.listPolicies = .ok ps)
    (ht : policyToTranslationState R.env ps = .ok ts)
    (hp : R.process ts.accum = .error e) :
    Reconcile R = ⟨none, [], R.cluster⟩ := by
  unfold Reconcile
  rw [hl]
  simp only []
  rw [ht]
  simp only []
  rw [hp]

/-- C7 witness: a reconcile environment whose engine fails ends cleanly
with no writes. -/
theorem process_error_ends_pass_cleanly_witness :
    Reconcile renvPE = ⟨none, [], []⟩ :=
  process_error_ends_pass_cleanly renvPE [] ⟨[], [], []⟩ "te" rfl rfl rfl

/-- C9: the Gateway trigger path emits exactly the single placeholder
request whenever the changed gateway key is present in the index,
however many dependent policies are recorded, and nothing when the key
is absent; the VirtualService trigger path emits exactly the single
placeholder request when at least one policy matches the field index and
nothing when none matches. -/
theorem trigger_fan_in_single_request
    (idx1 idx2 : List (String × List HTTPFilterPolicy)) (gw : Gateway)
    (ps : List HTTPFilterPolicy)
    (reader1 reader2 : String → Except String (List HTTPFilterPolicy))
    (nm : String) (qs : List HTTPFilterPolicy)
    (h1 : idx1.lookup (k8sGetObjectKey gw.ns gw.name) = some ps)
    (h2 : idx2.lookup (k8sGetObjectKey gw.ns gw.name) = none)
    (hr1 : reader1 nm = .ok qs) (hqs : qs ≠ [])
    (hr2 : reader2 nm = .ok []) :
    istioGatewayFindAffectedObjects idx1 gw = reconcileReqPlaceholder
    ∧ istioGatewayFindAffectedObjects idx2 gw = []
    ∧ findAffectedObjects reader1 nm = reconcileReqPlaceholder
    ∧ findAffectedObjects reader2 nm = []
    ∧ reconcileReqPlaceholder.length = 1 := by
  refine ⟨?_, ?_, ?_, ?_, rfl⟩
  · unfold istioGatewayFindAffectedObjects
    rw [h1]
    rfl
  · unfold istioGatewayFindAffectedObjects
    rw [h2]
  · unfold findAffectedObjects
    rw [hr1]
    have : 0 < qs.length := List.length_pos.mpr hqs
    simp [triggerReconciliation, this]
  · unfold findAffectedObjects
    rw [hr2]
    simp

/-- C9 witness: a gateway referenced by three policies produces exactly
one request; an unknown gateway produces none; one matching policy on
the VirtualService path produces one request, no match none. -/
theorem trigger_fan_in_single_request_witness :
    istioGatewayFindAffectedObjects idx3 gwW = reconcileReqPlaceholder
    ∧ istioGatewayFindAffectedObjects [] gwW = []
    ∧ findAffectedObjects (fun _ => .ok ps3) "vs1" = reconcileReqPlaceholder
    ∧ findAffectedObjects (fun _ => .ok []) "vs1" = []
    ∧ reconcileReqPlaceholder.length = 1 :=
  trigger_fan_in_single_request idx3 [] gwW ps3 (fun _ => .ok ps3) (fun _ => .ok [])
    "vs1" ps3 rfl rfl rfl (by decide) rfl

/-- C4: the upsert prepares each desired EnvoyFilter by forcing the
control-plane namespace and attaching the ownership label, then: absent
from the cluster at that name, it is created; present with proto-equal
Spec, nothing is written; present with a differing Spec, it is updated
with the existing resourceVersion carried forward. -/
theorem upsert_desired_object_cases
    (c1 c2 c3 : List EnvoyFilter) (w1 w2 w3 : List WriteOp) (ef ex2 ex3 : EnvoyFilter)
    (h1 : clusterGet c1 rootNamespace ef.name = none)
    (h2 : clusterGet c2 rootNamespace ef.name = some ex2)
    (heq : ex2.spec = ef.spec)
    (h3 : clusterGet c3 rootNamespace ef.name = some ex3)
    (hne : ex3.spec ≠ ef.spec) :
    (prepareEnvoyFilter ef).ns = rootNamespace
    ∧ hasOwnerLabel (prepareEnvoyFilter ef) = true
    ∧ (prepareEnvoyFilter ef).spec = ef.spec
    ∧ upsertStep (c1, w1) ef
        = (c1 ++ [prepareEnvoyFilter ef], w1 ++ [WriteOp.createEF rootNamespace ef.name])
    ∧ upsertStep (c2, w2) ef = (c2, w2)
    ∧ upsertStep (c3, w3) ef
        = (clusterUpdate c3 { prepareEnvoyFilter ef with resourceVersion := ex3.resourceVersion },
           w3 ++ [WriteOp.updateEF rootNamespace ef.name]) := by
  have h1a : clusterGet c1 rootNamespace (prepareEnvoyFilter ef).name = none := h1
  have h2a : clusterGet c2 rootNamespace (prepareEnvoyFilter ef).name = some ex2 := h2
  have h3a : clusterGet c3 rootNamespace (prepareEnvoyFilter ef).name = some ex3 := h3
  refine ⟨rfl, ?_, rfl, ?_, ?_, ?_⟩
  · simp [hasOwnerLabel, prepareEnvoyFilter, setOwnerLabel, List.lookup]
  · simp only [upsertStep]
    rw [h1a]
    rfl
  · simp only [upsertStep]
    rw [h2a]
    have hcond : (ex2.spec == (prepareEnvoyFilter ef).spec) = true := by
      simp [prepareEnvoyFilter, heq]
    simp [hcond]
  · simp only [upsertStep]
    rw [h3a]
    have hcond : ¬ (ex3.spec == (prepareEnvoyFilter ef).spec) = true := by
      simp [prepareEnvoyFilter, hne]
    simp [hcond]
    rfl

/-- C4 witness: efD is created when absent, left alone next to the
payload-equal efC2, and updates the payload-different efC3 carrying its
resourceVersion rv2 forward. -/
theorem upsert_desired_object_cases_witness :
    (prepareEnvoyFilter efD).ns = rootNamespace
    ∧ hasOwnerLabel (prepareEnvoyFilter efD) = true
    ∧ (prepareEnvoyFilter efD).spec = efD.spec
    ∧ upsertStep ([], []) efD
        = ([] ++ [prepareEnvoyFilter efD], [] ++ [WriteOp.createEF rootNamespace efD.name])
    ∧ upsertStep ([efC2], []) efD = ([efC2], [])
    ∧ upsertStep ([efC3], []) efD
        = (clusterUpdate [efC3] { prepareEnvoyFilter efD with resourceVersion := efC3.resourceVersion },
           [] ++ [WriteOp.updateEF rootNamespace efD.name]) :=
  upsert_desired_object_cases [] [efC2] [efC3] [] [] [] efD efC2 efC3
    rfl rfl rfl rfl (by decide)

/-- The prepared EnvoyFilter keeps the desired object name. -/
theorem prepare_name (ef : EnvoyFilter) : (prepareEnvoyFilter ef).name = ef.name := rfl

/-- The prepared EnvoyFilter lives in the control-plane namespace. -/
theorem prepare_ns (ef : EnvoyFilter) : (prepareEnvoyFilter ef).ns = rootNamespace := rfl

/-- A prepared EnvoyFilter carries the ownership label. -/
theorem hasOwnerLabel_prepare (ef : EnvoyFilter) :
    hasOwnerLabel (prepareEnvoyFilter ef) = true := by
  simp [hasOwnerLabel, prepareEnvoyFilter, setOwnerLabel, List.lookup]

/-- A prepared EnvoyFilter with a carried-forward resourceVersion still
carries the ownership label. -/
theorem hasOwnerLabel_prepare_rv (ef : EnvoyFilter) (rv : String) :
    hasOwnerLabel { prepareEnvoyFilter ef with resourceVersion := rv } = true := by
  simp [hasOwnerLabel, prepareEnvoyFilter, setOwnerLabel, List.lookup]

/-- A member of the desired list has its name in the desired name set. -/
theorem fsHas_of_mem (fs : List EnvoyFilter) (x : EnvoyFilter) (h : x ∈ fs) :
    fsHas fs x.name = true := by
  unfold fsHas
  exact List.any_eq_true.mpr ⟨x, h, by simp⟩

/-- A name in the desired name set is the name of a desired object. -/
theorem exists_of_fsHas (fs : List EnvoyFilter) (n : String) (h : fsHas fs n = true) :
    ∃ x ∈ fs, x.name = n := by
  unfold fsHas at h
  rcases List.any_eq_true.mp h with ⟨x, hx, he⟩
  exact ⟨x, hx, by simpa using he⟩

/-- Pruning never adds objects: the resulting cluster only contains
objects of the accumulator cluster. -/
theorem pruneLoop_cluster_subset (fs : List EnvoyFilter) :
    ∀ (l : List EnvoyFilter) (acc : List EnvoyFilter × List WriteOp) (e : EnvoyFilter),
    e ∈ (pruneLoop fs l acc).1 → e ∈ acc.1 := by
  intro l
  induction l with
  | nil => intro acc e h; exact h
  | cons x rest ih =>
    intro acc e h
    unfold pruneLoop at h
    by_cases hx : fsHas fs x.name = true
    · rw [if_pos hx] at h
      exact ih acc e h
    · rw [if_neg hx] at h
      have h2 := ih _ e h
      unfold clusterDelete at h2
      exact List.mem_of_mem_filter h2

/-- A snapshot element with a stale name is absent from the pruned
cluster. -/
theorem pruneLoop_removes (fs : List EnvoyFilter) :
    ∀ (l : List EnvoyFilter) (acc : List EnvoyFilter × List WriteOp) (e : EnvoyFilter),
    e ∈ l → fsHas fs e.name = false → e ∉ (pruneLoop fs l acc).1 := by
  intro l
  induction l with
  | nil => intro acc e h; exact absurd h (List.not_mem_nil e)
  | cons x rest ih =>
    intro acc e hmem hst
    unfold pruneLoop
    rcases List.mem_cons.mp hmem with rfl | hmem2
    · rw [if_neg (by simp [hst])]
      intro hin
      have h2 := pruneLoop_cluster_subset fs rest _ e hin
      unfold clusterDelete at h2
      have h3 := (List.mem_filter.mp h2).2
      simp at h3
    · by_cases hx : fsHas fs x.name = true
      · rw [if_pos hx]; exact ih _ e hmem2 hst
      · rw [if_neg hx]; exact ih _ e hmem2 hst

/-- Prune writes only grow. -/
theorem pruneLoop_writes_mono (fs : List EnvoyFilter) :
    ∀ (l : List EnvoyFilter) (acc : List EnvoyFilter × List WriteOp) (op : WriteOp),
    op ∈ acc.2 → op ∈ (pruneLoop fs l acc).2 := by
  intro l
  induction l with
  | nil => intro acc op h; exact h
  | cons x rest ih =>
    intro acc op h
    unfold pruneLoop
    by_cases hx : fsHas fs x.name = true
    · rw [if_pos hx]; exact ih acc op h
    · rw [if_neg hx]
      exact ih _ op (by simp [h])

/-- Every stale snapshot element gets a delete write. -/
theorem pruneLoop_write_of_stale (fs : List EnvoyFilter) :
    ∀ (l : List EnvoyFilter) (acc : List EnvoyFilter × List WriteOp) (e : EnvoyFilter),
    e ∈ l → fsHas fs e.name = false →
    WriteOp.deleteEF e.ns e.name ∈ (pruneLoop fs l acc).2 := by
  intro l
  induction l with
  | nil => intro acc e h; exact absurd h (List.not_mem_nil e)
  | cons x rest ih =>
    intro acc e hmem hst
    unfold pruneLoop
    rcases List.mem_cons.mp hmem with rfl | hmem2
    · rw [if_neg (by simp [hst])]
      exact pruneLoop_writes_mono fs rest _ _ (by simp)
    · by_cases hx : fsHas fs x.name = true
      · rw [if_pos hx]; exact ih _ e hmem2 hst
      · rw [if_neg hx]; exact ih _ e hmem2 hst

/-- An accumulator object whose key differs from every snapshot
element's key survives the prune loop. -/
theorem pruneLoop_keeps (fs : List EnvoyFilter) :
    ∀ (l : List EnvoyFilter) (acc : List EnvoyFilter × List WriteOp) (e : EnvoyFilter),
    e ∈ acc.1 → (∀ x ∈ l, ¬(x.ns = e.ns ∧ x.name = e.name)) →
    e ∈ (pruneLoop fs l acc).1 := by
  intro l
  induction l with
  | nil => intro acc e h _; exact h
  | cons x rest ih =>
    intro acc e he hd
    unfold pruneLoop
    by_cases hx : fsHas fs x.name = true
    · rw [if_pos hx]
      exact ih acc e he (fun y hy => hd y (by simp [hy]))
    · rw [if_neg hx]
      apply ih _ e _ (fun y hy => hd y (by simp [hy]))
      unfold clusterDelete
      refine List.mem_filter.mpr ⟨he, ?_⟩
      have hdx := hd x (by simp)
      by_contra hcon
      apply hdx
      simp at hcon
      exact ⟨hcon.1.symm, hcon.2.symm⟩

/-- Every prune write names the key of some snapshot element. -/
theorem pruneLoop_write_src (fs : List EnvoyFilter) :
    ∀ (l : List EnvoyFilter) (acc : List EnvoyFilter × List WriteOp) (op : WriteOp),
    op ∈ (pruneLoop fs l acc).2 →
    op ∈ acc.2 ∨ ∃ x ∈ l, op = WriteOp.deleteEF x.ns x.name := by
  intro l
  induction l with
  | nil => intro acc op h; left; exact h
  | cons x rest ih =>
    intro acc op h
    unfold pruneLoop at h
    by_cases hx : fsHas fs x.name = true
    · rw [if_pos hx] at h
      rcases ih acc op h with h1 | ⟨y, hy, he⟩
      · left; exact h1
      · right; exact ⟨y, by simp [hy], he⟩
    · rw [if_neg hx] at h
      rcases ih _ op h with h1 | ⟨y, hy, he⟩
      · rcases List.mem_append.mp h1 with h2 | h2
        · left; exact h2
        · right; exact ⟨x, by simp, by simpa using h2⟩
      · right; exact ⟨y, by simp [hy], he⟩

/-- A member of an updated cluster is an old object or the written one. -/
theorem clusterUpdate_mem (c : List EnvoyFilter) (u e : EnvoyFilter)
    (h : e ∈ clusterUpdate c u) : e ∈ c ∨ e = u := by
  unfold clusterUpdate at h
  rcases List.mem_map.mp h with ⟨x, hx, hxe⟩
  by_cases hc : (x.ns == u.ns && x.name == u.name) = true
  · rw [if_pos hc] at hxe; right; exact hxe.symm
  · rw [if_neg hc] at hxe; left; rw [← hxe]; exact hx

/-- Updating preserves every NamespacedName present in the cluster. -/
theorem clusterUpdate_keyMem (c : List EnvoyFilter) (u e : EnvoyFilter) (h : e ∈ c) :
    ∃ e2 ∈ clusterUpdate c u, e2.ns = e.ns ∧ e2.name = e.name := by
  unfold clusterUpdate
  by_cases hc : (e.ns == u.ns && e.name == u.name) = true
  · refine ⟨u, List.mem_map.mpr ⟨e, h, by rw [if_pos hc]⟩, ?_, ?_⟩
    · simp at hc; exact hc.1.symm
    · simp at hc; exact hc.2.symm
  · exact ⟨e, List.mem_map.mpr ⟨e, h, by rw [if_neg hc]⟩, rfl, rfl⟩

/-- A member of the cluster after one upsert iteration is an old object
or carries the desired object name. -/
theorem upsertStep_mem (acc : List EnvoyFilter × List WriteOp) (ef e : EnvoyFilter)
    (h : e ∈ (upsertStep acc ef).1) : e ∈ acc.1 ∨ e.name = ef.name := by
  simp only [upsertStep] at h
  cases hg : clusterGet acc.1 rootNamespace (prepareEnvoyFilter ef).name with
  | none =>
    rw [hg] at h
    simp only [] at h
    rcases List.mem_append.mp h with h1 | h1
    · left; exact h1
    · right; simp at h1; rw [h1]; rfl
  | some ex =>
    rw [hg] at h
    simp only [] at h
    by_cases hc : (ex.spec == (prepareEnvoyFilter ef).spec) = true
    · rw [if_pos hc] at h; left; exact h
    · rw [if_neg hc] at h
      rcases clusterUpdate_mem _ _ _ h with h1 | h1
      · left; exact h1
      · right; rw [h1]; rfl

/-- A member of the cluster after the upsert loop is an object of the
starting cluster or carries the name of some desired object. -/
theorem upsertLoop_mem :
    ∀ (l : List EnvoyFilter) (acc : List EnvoyFilter × List WriteOp) (e : EnvoyFilter),
    e ∈ (upsertLoop l acc).1 → e ∈ acc.1 ∨ ∃ x ∈ l, e.name = x.name := by
  intro l
  induction l with
  | nil => intro acc e h; left; exact h
  | cons ef rest ih =>
    intro acc e h
    unfold upsertLoop at h
    rcases ih _ e h with h1 | ⟨x, hx, hxe⟩
    · rcases upsertStep_mem acc ef e h1 with h2 | h2
      · left; exact h2
      · right; exact ⟨ef, by simp, h2⟩
    · right; exact ⟨x, by simp [hx], hxe⟩

/-- The upsert loop preserves every NamespacedName present in the
cluster. -/
theorem upsertLoop_keyMem :
    ∀ (l : List EnvoyFilter) (acc : List EnvoyFilter × List WriteOp) (ns n : String),
    (∃ e ∈ acc.1, e.ns = ns ∧ e.name = n) →
    ∃ e ∈ (upsertLoop l acc).1, e.ns = ns ∧ e.name = n := by
  intro l
  induction l with
  | nil => intro acc ns n h; exact h
  | cons ef rest ih =>
    intro acc ns n h
    unfold upsertLoop
    apply ih
    rcases h with ⟨e, he, hns, hn⟩
    simp only [upsertStep]
    cases hg : clusterGet acc.1 rootNamespace (prepareEnvoyFilter ef).name with
    | none =>
      simp only []
      exact ⟨e, by simp [he], hns, hn⟩
    | some ex =>
      simp only []
      by_cases hc : (ex.spec == (prepareEnvoyFilter ef).spec) = true
      · rw [if_pos hc]; exact ⟨e, he, hns, hn⟩
      · rw [if_neg hc]
        rcases clusterUpdate_keyMem acc.1
          { prepareEnvoyFilter ef with resourceVersion := ex.resourceVersion } e he
          with ⟨e2, he2, h2ns, h2n⟩
        exact ⟨e2, he2, by rw [h2ns, hns], by rw [h2n, hn]⟩

/-- One upsert iteration preserves the invariant that every object of
the control-plane namespace bearing a desired name is labeled. -/
theorem upsertStep_rootLabeled (fs : List EnvoyFilter)
    (acc : List EnvoyFilter × List WriteOp) (ef : EnvoyFilter)
    (hJ : ∀ e ∈ acc.1, e.ns = rootNamespace → fsHas fs e.name = true → hasOwnerLabel e = true) :
    ∀ e ∈ (upsertStep acc ef).1, e.ns = rootNamespace → fsHas fs e.name = true →
      hasOwnerLabel e = true := by
  intro e he hens hefs
  simp only [upsertStep] at he
  cases hg : clusterGet acc.1 rootNamespace (prepareEnvoyFilter ef).name with
  | none =>
    rw [hg] at he
    simp only [] at he
    rcases List.mem_append.mp he with h1 | h1
    · exact hJ e h1 hens hefs
    · simp at h1; rw [h1]; exact hasOwnerLabel_prepare ef
  | some ex =>
    rw [hg] at he
    simp only [] at he
    by_cases hc : (ex.spec == (prepareEnvoyFilter ef).spec) = true
    · rw [if_pos hc] at he; exact hJ e he hens hefs
    · rw [if_neg hc] at he
      rcases clusterUpdate_mem _ _ _ he with h1 | h1
      · exact hJ e h1 hens hefs
      · rw [h1]; exact hasOwnerLabel_prepare_rv ef ex.resourceVersion

/-- One upsert iteration keeps a labeled object of the control-plane
namespace at a given name present (possibly replaced by the update). -/
theorem upsertStep_labKeep (acc : List EnvoyFilter × List WriteOp) (ef : EnvoyFilter)
    (n : String)
    (h : ∃ e ∈ acc.1, hasOwnerLabel e = true ∧ e.name = n ∧ e.ns = rootNamespace) :
    ∃ e ∈ (upsertStep acc ef).1, hasOwnerLabel e = true ∧ e.name = n ∧ e.ns = rootNamespace := by
  rcases h with ⟨e, he, hlab, hn, hns⟩
  simp only [upsertStep]
  cases hg : clusterGet acc.1 rootNamespace (prepareEnvoyFilter ef).name with
  | none =>
    simp only []
    exact ⟨e, by simp [he], hlab, hn, hns⟩
  | some ex =>
    simp only []
    by_cases hc : (ex.spec == (prepareEnvoyFilter ef).spec) = true
    · rw [if_pos hc]; exact ⟨e, he, hlab, hn, hns⟩
    · rw [if_neg hc]
      by_cases hk : (e.ns == (prepareEnvoyFilter ef).ns && e.name == (prepareEnvoyFilter ef).name) = true
      · refine ⟨{ prepareEnvoyFilter ef with resourceVersion := ex.resourceVersion },
          ?_, hasOwnerLabel_prepare_rv ef ex.resourceVersion, ?_, rfl⟩
        · unfold clusterUpdate
          exact List.mem_map.mpr ⟨e, he, by rw [if_pos hk]⟩
        · simp at hk
          rw [← hk.2]
          exact hn
      · refine ⟨e, ?_, hlab, hn, hns⟩
        unfold clusterUpdate
        exact List.mem_map.mpr ⟨e, he, by rw [if_neg hk]⟩

/-- The upsert loop keeps a labeled object of the control-plane
namespace at a given name present. -/
theorem upsertLoop_labKeep :
    ∀ (l : List EnvoyFilter) (acc : List EnvoyFilter × List WriteOp) (n : String),
    (∃ e ∈ acc.1, hasOwnerLabel e = true ∧ e.name = n ∧ e.ns = rootNamespace) →
    ∃ e ∈ (upsertLoop l acc).1, hasOwnerLabel e = true ∧ e.name = n ∧ e.ns = rootNamespace := by
  intro l
  induction l with
  | nil => intro acc n h; exact h
  | cons ef rest ih =>
    intro acc n h
    unfold upsertLoop
    exact ih _ n (upsertStep_labKeep acc ef n h)

/-- Upsert writes only grow. -/
theorem upsertStep_writes_mono (acc : List EnvoyFilter × List WriteOp) (ef : EnvoyFilter)
    (op : WriteOp) (h : op ∈ acc.2) : op ∈ (upsertStep acc ef).2 := by
  simp only [upsertStep]
  cases hg : clusterGet acc.1 rootNamespace (prepareEnvoyFilter ef).name with
  | none =>
    simp only []
    exact List.mem_append.mpr (Or.inl h)
  | some ex =>
    simp only []
    by_cases hc : (ex.spec == (prepareEnvoyFilter ef).spec) = true
    · rw [if_pos hc]; exact h
    · rw [if_neg hc]; exact List.mem_append.mpr (Or.inl h)

/-- The upsert loop only grows the write log. -/
theorem upsertLoop_writes_mono :
    ∀ (l : List EnvoyFilter) (acc : List EnvoyFilter × List WriteOp) (op : WriteOp),
    op ∈ acc.2 → op ∈ (upsertLoop l acc).2 := by
  intro l
  induction l with
  | nil => intro acc op h; exact h
  | cons ef rest ih =>
    intro acc op h
    unfold upsertLoop
    exact ih _ op (upsertStep_writes_mono acc ef op h)

/-- An upsert iteration only adds create or update writes aimed at the
control-plane namespace. -/
theorem upsertStep_write_src (acc : List EnvoyFilter × List WriteOp) (ef : EnvoyFilter)
    (op : WriteOp) (h : op ∈ (upsertStep acc ef).2) :
    op ∈ acc.2 ∨ ∃ n, op = WriteOp.createEF rootNamespace n
      ∨ op = WriteOp.updateEF rootNamespace n := by
  simp only [upsertStep] at h
  cases hg : clusterGet acc.1 rootNamespace (prepareEnvoyFilter ef).name with
  | none =>
    rw [hg] at h
    simp only [] at h
    rcases List.mem_append.mp h with h1 | h1
    · left; exact h1
    · right; simp at h1; exact ⟨(prepareEnvoyFilter ef).name, Or.inl h1⟩
  | some ex =>
    rw [hg] at h
    simp only [] at h
    by_cases hc : (ex.spec == (prepareEnvoyFilter ef).spec) = true
    · rw [if_pos hc] at h; left; exact h
    · rw [if_neg hc] at h
      rcases List.mem_append.mp h with h1 | h1
      · left; exact h1
      · right; simp at h1; exact ⟨(prepareEnvoyFilter ef).name, Or.inr h1⟩

/-- The upsert loop only adds create or update writes aimed at the
control-plane namespace. -/
theorem upsertLoop_write_src :
    ∀ (l : List EnvoyFilter) (acc : List EnvoyFilter × List WriteOp) (op : WriteOp),
    op ∈ (upsertLoop l acc).2 →
    op ∈ acc.2 ∨ ∃ n, op = WriteOp.createEF rootNamespace n
      ∨ op = WriteOp.updateEF rootNamespace n := by
  intro l
  induction l with
  | nil => intro acc op h; left; exact h
  | cons ef rest ih =>
    intro acc op h
    unfold upsertLoop at h
    rcases ih _ op h with h1 | h1
    · exact upsertStep_write_src acc ef op h1
    · right; exact h1

/-- Every desired object ends with a labeled EnvoyFilter of its name in
the control-plane namespace, provided every object of that namespace
bearing a desired name is labeled when the loop starts. -/
theorem upsertLoop_labeled_present (fs : List EnvoyFilter) :
    ∀ (l : List EnvoyFilter) (acc : List EnvoyFilter × List WriteOp),
    (∀ e ∈ acc.1, e.ns = rootNamespace → fsHas fs e.name = true → hasOwnerLabel e = true) →
    (∀ x ∈ l, fsHas fs x.name = true) →
    ∀ ef ∈ l, ∃ e ∈ (upsertLoop l acc).1,
      hasOwnerLabel e = true ∧ e.name = ef.name ∧ e.ns = rootNamespace := by
  intro l
  induction l with
  | nil => intro acc _ _ ef h; exact absurd h (List.not_mem_nil ef)
  | cons x rest ih =>
    intro acc hJ hfs ef hef
    unfold upsertLoop
    rcases List.mem_cons.mp hef with rfl | hef2
    · apply upsertLoop_labKeep
      simp only [upsertStep]
      cases hg : clusterGet acc.1 rootNamespace (prepareEnvoyFilter ef).name with
      | none =>
        simp only []
        exact ⟨prepareEnvoyFilter ef, by simp, hasOwnerLabel_prepare ef, rfl, rfl⟩
      | some ex =>
        simp only []
        have hg2 : List.find?
            (fun e => e.ns == rootNamespace && e.name == (prepareEnvoyFilter ef).name)
            acc.1 = some ex := by
          unfold clusterGet at hg
          exact hg
        have hexmem : ex ∈ acc.1 := List.mem_of_find?_eq_some hg2
        have hexkey := List.find?_some hg2
        simp at hexkey
        have hexfs : fsHas fs ex.name = true := by
          rw [hexkey.2, prepare_name]
          exact hfs ef (by simp)
        by_cases hc : (ex.spec == (prepareEnvoyFilter ef).spec) = true
        · rw [if_pos hc]
          exact ⟨ex, hexmem, hJ ex hexmem hexkey.1 hexfs,
            by rw [hexkey.2, prepare_name], hexkey.1⟩
        · rw [if_neg hc]
          refine ⟨{ prepareEnvoyFilter ef with resourceVersion := ex.resourceVersion },
            ?_, hasOwnerLabel_prepare_rv ef ex.resourceVersion, rfl, rfl⟩
          unfold clusterUpdate
          refine List.mem_map.mpr ⟨ex, hexmem, ?_⟩
          rw [if_pos (by simp [hexkey.1, hexkey.2, prepare_ns])]
    · exact ih _ (upsertStep_rootLabeled fs acc x hJ)
        (fun y hy => hfs y (by simp [hy])) ef hef2

/-- C3 counterexample: the upsert fetches by name only, so an unlabeled
EnvoyFilter occupying a desired name in the control-plane namespace is
updated (modified, and relabeled) by the applier, refuting that objects
lacking the ownership label are never deleted or modified regardless of
FinalState contents. -/
theorem unlabeled_envoyfilter_modified_cex :
    hasOwnerLabel efU = false
    ∧ efU ∈ [efU]
    ∧ (translationStateToCustomResource fsX [efU]).2
        = [WriteOp.updateEF rootNamespace "a"]
    ∧ (translationStateToCustomResource fsX [efU]).1
        = [⟨"a", rootNamespace, [(labelCreatedBy, labelCreatedByValue)], "new", "rv0"⟩] := by
  exact ⟨rfl, by simp, rfl, rfl⟩

/-- C3 amended: every labeled EnvoyFilter whose name is absent from the
desired set receives a delete and is gone from the resulting cluster; no
unlabeled object is ever deleted (its NamespacedName survives and no
delete write names it), though one occupying a desired name in the
control-plane namespace may be overwritten by the upsert; and provided
no unlabeled object in the control-plane namespace bears a desired name,
the names of the labeled objects after the pass are exactly the desired
names. -/
theorem applier_prune_upsert_ownership (cluster fs : List EnvoyFilter)
    (hkeys : (cluster.map (fun e => (e.ns, e.name))).Nodup)
    (hcol : ∀ e ∈ cluster, e.ns = rootNamespace → hasOwnerLabel e = false →
      fsHas fs e.name = false) :
    (∀ e ∈ cluster, hasOwnerLabel e = true → fsHas fs e.name = false →
      WriteOp.deleteEF e.ns e.name ∈ (translationStateToCustomResource fs cluster).2
      ∧ e ∉ (translationStateToCustomResource fs cluster).1)
    ∧ (∀ e ∈ cluster, hasOwnerLabel e = false →
      WriteOp.deleteEF e.ns e.name ∉ (translationStateToCustomResource fs cluster).2
      ∧ ∃ e2 ∈ (translationStateToCustomResource fs cluster).1,
          e2.ns = e.ns ∧ e2.name = e.name)
    ∧ (∀ n, (∃ e2 ∈ (translationStateToCustomResource fs cluster).1,
        hasOwnerLabel e2 = true ∧ e2.name = n) ↔ fsHas fs n = true) := by
  unfold translationStateToCustomResource
  have hPsub : ∀ e ∈ (pruneLoop fs (cluster.filter hasOwnerLabel) (cluster, [])).1,
      e ∈ cluster :=
    fun e he => pruneLoop_cluster_subset fs _ (cluster, []) e he
  have hI : ∀ e ∈ (pruneLoop fs (cluster.filter hasOwnerLabel) (cluster, [])).1,
      hasOwnerLabel e = true → fsHas fs e.name = true := by
    intro e he hl
    cases hb : fsHas fs e.name with
    | true => rfl
    | false =>
      exact absurd he (pruneLoop_removes fs _ (cluster, []) e
        (List.mem_filter.mpr ⟨hPsub e he, hl⟩) hb)
  have hJ : ∀ e ∈ (pruneLoop fs (cluster.filter hasOwnerLabel) (cluster, [])).1,
      e.ns = rootNamespace → fsHas fs e.name = true → hasOwnerLabel e = true := by
    intro e he hns hfs
    cases hlb : hasOwnerLabel e with
    | true => rfl
    | false =>
      rw [hcol e (hPsub e he) hns hlb] at hfs
      cases hfs
  refine ⟨?_, ?_, ?_⟩
  · intro e he hl hst
    constructor
    · exact upsertLoop_writes_mono fs _ _
        (pruneLoop_write_of_stale fs _ (cluster, []) e
          (List.mem_filter.mpr ⟨he, hl⟩) hst)
    · intro hin
      rcases upsertLoop_mem fs _ e hin with h1 | ⟨x, hx, hxe⟩
      · exact pruneLoop_removes fs _ (cluster, []) e
          (List.mem_filter.mpr ⟨he, hl⟩) hst h1
      · rw [hxe] at hst
        rw [fsHas_of_mem fs x hx] at hst
        cases hst
  · intro e he hul
    constructor
    · intro hop
      rcases upsertLoop_write_src fs _ _ hop with h1 | ⟨n, h2 | h2⟩
      · rcases pruneLoop_write_src fs _ (cluster, []) _ h1 with h3 | ⟨x, hx, he2⟩
        · exact absurd h3 (List.not_mem_nil _)
        · have hxc := List.mem_filter.mp hx
          have hkey : x.ns = e.ns ∧ x.name = e.name := by
            have h4 := he2
            simp only [WriteOp.deleteEF.injEq] at h4
            exact ⟨h4.1.symm, h4.2.symm⟩
          have hxe : x = e := by
            apply List.inj_on_of_nodup_map hkeys hxc.1 he
            simp [hkey.1, hkey.2]
          rw [hxe] at hxc
          rw [hxc.2] at hul
          cases hul
      · exact absurd h2 (by simp [rootNamespace])
      · exact absurd h2 (by simp [rootNamespace])
    · apply upsertLoop_keyMem
      refine ⟨e, ?_, rfl, rfl⟩
      apply pruneLoop_keeps fs _ (cluster, []) e he
      intro x hx hcon
      have hxc := List.mem_filter.mp hx
      have hxe : x = e := by
        apply List.inj_on_of_nodup_map hkeys hxc.1 he
        simp [hcon.1, hcon.2]
      rw [hxe] at hxc
      rw [hxc.2] at hul
      cases hul
  · intro n
    constructor
    · rintro ⟨e2, he2, hl2, hn2⟩
      rcases upsertLoop_mem fs _ e2 he2 with h1 | ⟨x, hx, hxe⟩
      · rw [← hn2]
        exact hI e2 h1 hl2
      · rw [← hn2, hxe]
        exact fsHas_of_mem fs x hx
    · intro hf
      rcases exists_of_fsHas fs n hf with ⟨x, hx, hxn⟩
      rcases upsertLoop_labeled_present fs fs _ hJ
        (fun y hy => fsHas_of_mem fs y hy) x hx with ⟨e2, he2, hl2, hn2, _⟩
      exact ⟨e2, he2, hl2, by rw [hn2, hxn]⟩

/-- C3 witness: in clW the stale labeled object b is deleted, the
unlabeled user object c survives with no delete write naming it, and the
labeled names after the pass match the desired set, which holds name a. -/
theorem applier_prune_upsert_ownership_witness :
    (WriteOp.deleteEF efL2.ns efL2.name ∈ (translationStateToCustomResource fsW2 clW).2
      ∧ efL2 ∉ (translationStateToCustomResource fsW2 clW).1)
    ∧ (WriteOp.deleteEF efU2.ns efU2.name ∉ (translationStateToCustomResource fsW2 clW).2
      ∧ ∃ e2 ∈ (translationStateToCustomResource fsW2 clW).1,
          e2.ns = efU2.ns ∧ e2.name = efU2.name)
    ∧ ((∃ e2 ∈ (translationStateToCustomResource fsW2 clW).1,
        hasOwnerLabel e2 = true ∧ e2.name = "a") ↔ fsHas fsW2 "a" = true) := by
  have h := applier_prune_upsert_ownership clW fsW2 (by decide) (by decide)
  exact ⟨h.1 efL2 (by decide) (by decide) (by decide),
         h.2.1 efU2 (by decide) (by decide),
         h.2.2 "a"⟩
